import Mathlib

/-!
Verification development for `deep_texture_histology` (`deeptexture/dtr.py`).

The Python module defines a class `DTR` computing deep texture representations:
a compact-bilinear-pooling engine (`DTR.forward`), a per-image descriptor
pipeline (`DTR.get_dtr`), cosine similarity (`DTR.sim`) and per-group
aggregation (`DTR.get_mean_dtrs`, together with `get_medoid` imported from
`deeptexture.utils`).

Embedding conventions:
* numpy / torch floating point numbers are modelled as real numbers;
* a Python attribute that `__init__` may leave unassigned is an `Option`
  field of the state structure, and reading it in the `none` case is an
  `AttributeError`;
* functions that can raise return `Except PyErr _`;
* external library calls (PIL decoding, `cv2.resize`, `scipy.ndimage.rotate`,
  the torchvision preprocessing `self.prep`, and the numpy PRNG) are
  parameters of the embedding: they are collaborators the module consumes,
  not code of this repository.
-/

noncomputable section

/-- Python exception kinds relevant to `dtr.py`: reading a missing attribute
(`AttributeError`), a failed `assert` (`AssertionError`), calling a function
with an unexpected keyword argument (`TypeError`), and the explicit
`raise Exception(...)` in the angle dispatch. -/
inductive PyErr
  | attributeError
  | assertionError
  | typeError
  | exceptionRaised
deriving DecidableEq

/-- A 2-D numpy / torch array of reals; the extents along each axis are kept
separately by the functions that consume it. -/
abbrev Mat : Type := ℕ → ℕ → ℝ

/-- A 1-D numpy array of reals. -/
abbrev Vec : Type := ℕ → ℝ

/-- A 4-D torch tensor `[batch, channels, height, width]`. -/
structure Tensor4 where
  batch : ℕ
  channels : ℕ
  height : ℕ
  width : ℕ
  data : ℕ → ℕ → ℕ → ℕ → ℝ

/-- A 3-D torch tensor `[channels, height, width]`, as produced by the
torchvision preprocessing `self.prep` on an image. -/
structure Tensor3 where
  channels : ℕ
  height : ℕ
  width : ℕ
  data : ℕ → ℕ → ℕ → ℝ

/-- `x.unsqueeze_(0)` (dtr.py line 158): add a leading batch axis of size 1. -/
def Tensor3.unsqueeze0 (t : Tensor3) : Tensor4 :=
  ⟨1, t.channels, t.height, t.width, fun _ c h w => t.data c h w⟩

/-- State of a `DTR` object after `DTR.__init__` (dtr.py lines 34-81).
Attributes assigned by `__init__` are fields.  `input_dim1` is the attribute
that `DTR.forward` reads (lines 89 and 93): no statement of `__init__` (nor of
any other method) assigns an attribute of that name — line 60 assigns
`input_dim` — so the field is an `Option ℕ` and construction always leaves it
`none`; reading it then raises `AttributeError`.  Likewise `rand_1` / `rand_2`
are `Option`s because `__init__` assigns them only in the branch where the
corresponding constructor parameter is `None` (lines 63-71).
The `device`, `normalize`, `prep`, `model` and `features` attributes carry no
information used by the claims: the backbone is opaque and preprocessing is
modelled by `PipelineOps.prep`. -/
structure DTRState where
  input_dim : ℕ
  output_dim : ℕ
  input_dim1 : Option ℕ
  rand_1 : Option Mat
  rand_2 : Option Mat

/-- Embedding of `DTR.__init__` (dtr.py lines 34-81), specialised to the
supported `arch='vgg'` path.

* `gen01` models the external numpy calls `np.random.seed(s)` followed by
  `np.random.randint(2, size=(n, m))`: `gen01 s n m i j` is entry `(i, j)` of
  the `{0, 1}`-valued array produced from seed `s` for shape `(n, m)`.  The
  code turns it into a sign matrix via `* 2 - 1` (lines 65, 70), with the
  fixed seeds 128 (line 64) and 1997 (line 69).
* `out_ch` models `self.features[-2].out_channels` (line 60), a constant of
  the external pretrained backbone (256 for `block3_conv3`, 512 for
  `block4_conv3`).
* Lines 63-67: the attribute `self.rand_1` is assigned **only** when the
  parameter `rand_1` is `None`; a supplied matrix is never stored and the
  attribute stays unassigned (`none`).  Lines 68-71: same for `rand_2`.
* No statement assigns `input_dim1`, hence that field is `none`. -/
def DTR.init (gen01 : ℕ → ℕ → ℕ → ℕ → ℕ → ℕ) (out_ch dim : ℕ)
    (rand_1 rand_2 : Option Mat) : DTRState :=
  { input_dim := out_ch
    output_dim := dim
    input_dim1 := none
    rand_1 :=
      match rand_1 with
      | none => some (fun i j => (gen01 128 out_ch dim i j : ℝ) * 2 - 1)
      | some _ => none
    rand_2 :=
      match rand_2 with
      | none => some (fun i j => (gen01 1997 out_ch dim i j : ℝ) * 2 - 1)
      | some _ => none }

/-- The flattening `bottom.permute(0, 2, 3, 1).contiguous().view(-1, C)` of
dtr.py line 93.  After the permute, the tensor has layout `[B, H, W, C]`, so
in C order row `n` of the `[B*H*W, C]` view is the channel vector of batch
`n / (H*W)` at spatial position `((n % (H*W)) / W, n % W)`. -/
def bottomFlat (C H W : ℕ) (data : ℕ → ℕ → ℕ → ℕ → ℝ) : Mat :=
  fun n c => data (n / (H * W)) c (n % (H * W) / W) (n % W)

/-- The body of `DTR.forward` after the attribute reads succeed
(dtr.py lines 91-103): flatten, multiply by the two projection matrices
(`torch.matmul`, lines 95-96), take the elementwise product (line 98), view
back to `[B, H, W, D]` (line 100) and apply `.mean(dim=1).mean(dim=1)`
(line 101) — the first mean averages over `H`, the second over `W`. -/
def pool (C H W : ℕ) (r1 r2 : Mat) (data : ℕ → ℕ → ℕ → ℕ → ℝ) : Mat :=
  let flat := bottomFlat C H W data
  let bottom1_mat : Mat := fun n d => ∑ c in Finset.range C, flat n c * r1 c d
  let bottom2_mat : Mat := fun n d => ∑ c in Finset.range C, flat n c * r2 c d
  let cbp_flat : Mat := fun n d => bottom1_mat n d * bottom2_mat n d
  let cbp := fun b h w d => cbp_flat (b * (H * W) + h * W + w) d
  fun b d =>
    (∑ w in Finset.range W, (∑ h in Finset.range H, cbp b h w d) / H) / W

/-- Embedding of `DTR.forward` (dtr.py lines 84-103).  The first executed
statement is `assert bottom.size(1) == self.input_dim1` (line 89): it begins
by reading the attribute `self.input_dim1`, which raises `AttributeError`
when unassigned, before the comparison is ever made.  When the attribute
were present the assert compares the channel extent with it (a failure is
`AssertionError`), line 93 reads `self.input_dim1` again as the flatten
width, and lines 95-96 read `self.rand_1` and `self.rand_2` (again
`AttributeError` if unassigned). -/
def DTR.forward (st : DTRState) (bottom : Tensor4) : Except PyErr Mat :=
  match st.input_dim1 with
  | none => .error .attributeError
  | some d1 =>
    if bottom.channels = d1 then
      match st.rand_1, st.rand_2 with
      | some r1, some r2 =>
          .ok (pool d1 bottom.height bottom.width r1 r2 bottom.data)
      | _, _ => .error .attributeError
    else .error .assertionError

/-- External image-level collaborators consumed by `DTR.get_dtr`
(dtr.py lines 124-165): PIL decoding, numpy array conversion, `cv2.resize`,
`scipy.ndimage.rotate` and the torchvision preprocessing `self.prep`
(`ToTensor` followed by `Normalize`, lines 73-81).  They are opaque to the
module and are therefore parameters of the embedding. -/
structure PipelineOps (Img : Type) where
  decode : String → Img
  toNp : Img → Img
  resize : Img → ℕ → ℕ → Img
  shape : Img → ℕ × ℕ
  rotateImg : Img → ℤ → Img
  prep : Img → Tensor3

/-- The polymorphic `img` argument of `DTR.get_dtr`: a file path, an already
decoded numpy array, or another image object (e.g. a PIL image). -/
inductive ImgArg (Img : Type)
  | path (s : String)
  | ndarray (x : Img)
  | obj (x : Img)

/-- The `angle` argument of `DTR.get_dtr`: absent, a single integer, or a
list of integers.  (The `raise Exception` branch of line 152 for other types
is unreachable in the typed embedding.) -/
inductive AngleArg
  | noAngle
  | int (theta : ℤ)
  | list (thetas : List ℤ)

/-- Type dispatch on the image argument (dtr.py lines 124-130): a string is
decoded and converted to RGB, a non-ndarray is converted via `np.array`, an
ndarray is used as is. -/
def imgToArray {Img : Type} (ops : PipelineOps Img) : ImgArg Img → Img
  | .path s => ops.decode s
  | .ndarray x => x
  | .obj x => ops.toNp x

/-- The resize step of dtr.py lines 132-136: an explicit square `size` takes
precedence; otherwise a `scale` ratio resizes to
`[int(h*scale), int(w*scale)]`; otherwise the image is untouched. -/
def resizeStep {Img : Type} (ops : PipelineOps Img) (x : Img)
    (size : Option ℕ) (scale : Option ℚ) : Img :=
  match size, scale with
  | some s, _ => ops.resize x s s
  | none, some r =>
      ops.resize x (Int.toNat (Int.floor ((ops.shape x).1 * r)))
        (Int.toNat (Int.floor ((ops.shape x).2 * r)))
  | none, none => x

/-- The L2 norm of the length-`n` vector `x`: `np.linalg.norm(x, ord=2)` on a
1-D array (dtr.py lines 150 and 181). -/
def vecL2 (n : ℕ) (x : Vec) : ℝ :=
  Real.sqrt (∑ i in Finset.range n, x i ^ 2)

/-- The scalar-angle / no-angle path of `DTR.get_dtr` (dtr.py lines 124-167
with `angle` not a list).  Control flow of the source, in order:
* lines 124-130: type dispatch on `img`;
* lines 132-136: optional resize;
* lines 138-140: when `multi_scale` is true the call
  `cv2.resize(x, dize=None, fx=0.25, fy=0.25)` is executed — `cv2.resize`
  has no keyword parameter `dize` (a misspelling of `dsize`), so the call
  raises `TypeError` here, before any descriptor work;
* lines 143-146: a single angle rotates the image in place;
* lines 157-159: preprocess, add the batch axis, run `self.forward` (note:
  the backbone `self.features` is never invoked) and take the resulting
  `[1, output_dim]` array — the embedding returns its row 0;
* lines 161-165 (second scale concatenation) are unreachable: they require
  `multi_scale`, which already raised at line 140. -/
def get_dtr_scalar {Img : Type} (ops : PipelineOps Img) (st : DTRState)
    (img : ImgArg Img) (angle : Option ℤ) (size : Option ℕ) (scale : Option ℚ)
    (multi_scale : Bool) : Except PyErr Vec :=
  let x := imgToArray ops img
  let x := resizeStep ops x size scale
  if multi_scale then .error .typeError
  else
    let x := match angle with
      | some theta => ops.rotateImg x theta
      | none => x
    do
      let cbp ← DTR.forward st (ops.prep x).unsqueeze0
      pure (fun j => cbp 0 j)

/-- Embedding of `DTR.get_dtr` (dtr.py lines 105-167).  The source is a
single function whose list-angle branch (lines 147-150) calls itself once per
angle with a scalar angle; the embedding separates that re-entrant scalar
call into `get_dtr_scalar` (the recursion depth is at most one).  In the
list branch the source stacks the per-angle descriptors (`np.vstack`), takes
their mean over axis 0 and divides by the L2 norm of the mean (line 150);
the preprocessing of lines 124-140 of the outer call still runs first — in
particular, with `multi_scale` the misspelled-keyword `TypeError` of line
140 is raised before the angle dispatch. -/
def DTR.get_dtr {Img : Type} (ops : PipelineOps Img) (st : DTRState)
    (img : ImgArg Img) (angle : AngleArg) (size : Option ℕ) (scale : Option ℚ)
    (multi_scale : Bool) : Except PyErr Vec :=
  match angle with
  | .int theta => get_dtr_scalar ops st img (some theta) size scale multi_scale
  | .noAngle => get_dtr_scalar ops st img none size scale multi_scale
  | .list thetas =>
      let x := resizeStep ops (imgToArray ops img) size scale
      if multi_scale then .error .typeError
      else do
        let dtrs ← thetas.mapM
          (fun theta => get_dtr_scalar ops st img (some theta) size scale multi_scale)
        let dtr_mean : Vec := fun j => (dtrs.map (fun d => d j)).sum / dtrs.length
        pure (fun j => dtr_mean j / vecL2 st.output_dim dtr_mean)

/-- Embedding of `DTR.sim` (dtr.py lines 169-182):
`np.dot(x, y) / (np.linalg.norm(x, 2) * np.linalg.norm(y, 2))`, with `n` the
common length of the two 1-D arrays.  The source contains no zero-norm
guard: the division is performed unconditionally. -/
def DTR.sim (n : ℕ) (x y : Vec) : ℝ :=
  (∑ i in Finset.range n, x i * y i) / (vecL2 n x * vecL2 n y)

/-- `np.sort(np.unique(cases))` (dtr.py line 223): the distinct labels of
`cases`, sorted ascending.  `np.unique` already returns sorted distinct
values; the embedding models it as deduplication followed by an ascending
sort. -/
def u_cases {α : Type} [LinearOrder α] (cases : List α) : List α :=
  (cases.dedup).insertionSort (· ≤ ·)

/-- The row positions of the boolean mask `np.array(cases) == case`
(dtr.py line 224): the indices `i < len(cases)` whose label is `case`. -/
def caseIdx {α : Type} [DecidableEq α] (cases : List α) (case : α) : Finset ℕ :=
  (Finset.range cases.length).filter (fun i => cases.get? i = some case)

/-- `np.mean(dtrs[np.array(cases) == case, :], axis=0)` (dtr.py line 224):
the arithmetic mean of the descriptor rows whose label is `case`. -/
def caseMean {α : Type} [DecidableEq α] (dtrs : Mat) (cases : List α)
    (case : α) : Vec :=
  fun j => (∑ i in caseIdx cases case, dtrs i j) / (caseIdx cases case).card

/-- The matrix `dtrs_mean` built by `np.vstack` on dtr.py line 224, before
the normalization of line 225: row `r` is the mean of the group whose label
is the `r`-th entry of `np.sort(np.unique(cases))`.  Rows beyond the number
of distinct labels are padding zeros (the physical array has exactly
`len(u_cases)` rows). -/
def stackMeans {α : Type} [LinearOrder α] (dtrs : Mat) (cases : List α) : Mat :=
  fun r j =>
    match (u_cases cases).get? r with
    | some case => caseMean dtrs cases case j
    | none => 0

/-- `np.linalg.norm(A, ord=2)` on a 2-D array `A` with `R` rows and `M`
columns: numpy computes the **matrix 2-norm**, i.e. the largest singular
value `sup { ‖A x‖₂ : ‖x‖₂ = 1 }` — not the entrywise (Frobenius / vector)
L2 norm. -/
def matNorm2 (R M : ℕ) (A : Mat) : ℝ :=
  sSup {t : ℝ | ∃ x : Vec, vecL2 M x = 1 ∧
    t = vecL2 R (fun i => ∑ j in Finset.range M, A i j * x j)}

/-- Following the wording of the specification: a "single vector L2-norm
operation over the entire stacked result", i.e. the square root of the sum
of the squares of all entries of the `R × M` matrix (the Frobenius norm).
This definition follows the claim text and is compared against the source
embedding `matNorm2`. -/
def frobNorm (R M : ℕ) (A : Mat) : ℝ :=
  Real.sqrt (∑ i in Finset.range R, ∑ j in Finset.range M, A i j ^ 2)

/-- Modelled from the spec: total cosine similarity of group member `i` "to
all other members of the same group" — the code for this lives in
`get_medoid` of `deeptexture/utils.py`, a file of this repository that is
not under `src/`.  `n` is the descriptor length used by the cosine
similarity. -/
def totalCaseSim {α : Type} [DecidableEq α] (n : ℕ) (dtrs : Mat)
    (cases : List α) (case : α) (i : ℕ) : ℝ :=
  ∑ j in (caseIdx cases case).erase i, DTR.sim n (dtrs i) (dtrs j)

/-- Modelled from the spec: total cosine distance (`1 - similarity`) of
group member `i` to all other members of its group. -/
def totalCaseDist {α : Type} [DecidableEq α] (n : ℕ) (dtrs : Mat)
    (cases : List α) (case : α) (i : ℕ) : ℝ :=
  ∑ j in (caseIdx cases case).erase i, (1 - DTR.sim n (dtrs i) (dtrs j))

/-- Modelled from the spec: `get_medoid` is imported from
`deeptexture.utils` (dtr.py line 16) and called on line 227, but
`deeptexture/utils.py` is not under `src/`.  Per spec §4.3, the medoid of a
group is "the index (within the full N-row input, not group-local) of the
descriptor … minimizing total cosine distance (equivalently maximizing
total cosine similarity) to all other members of the same group, with ties
broken by lowest original index": the least full-input index among the
members of the group attaining the maximal total similarity. -/
def get_medoid {α : Type} [DecidableEq α] (n : ℕ) (dtrs : Mat)
    (cases : List α) (case : α) : ℕ :=
  sInf {i : ℕ | i ∈ caseIdx cases case ∧
    ∀ j ∈ caseIdx cases case,
      totalCaseSim n dtrs cases case j ≤ totalCaseSim n dtrs cases case i}

/-- Embedding of `DTR.get_mean_dtrs` (dtr.py lines 205-239), first two
components of the returned triple.  Line 223 computes the sorted distinct
labels, line 224 stacks the per-group means, and line 225 divides the whole
stacked 2-D array by `np.linalg.norm(dtrs_mean, ord=2)` — one shared
constant for every entry, the matrix 2-norm of the stack.  `M` is the
descriptor length (the number of columns of `dtrs`).  The third component
(`df_mean`, lines 229-237) only selects attribute rows at the medoid
indices of `get_medoid` (line 227) and is not modelled. -/
def DTR.get_mean_dtrs {α : Type} [LinearOrder α] (M : ℕ) (dtrs : Mat)
    (cases : List α) : Mat × List α :=
  let dtrs_mean := stackMeans dtrs cases
  (fun r j => dtrs_mean r j / matNorm2 (u_cases cases).length M dtrs_mean,
    u_cases cases)

/-! ## Theorems -/

/-- Decoding of the C-order flat row index used by the `view(-1, C)` of
dtr.py line 93: for spatial coordinates in range, the flat index
`b*(H*W) + h*W + w` decodes back to `(b, h, w)`. -/
theorem flat_index_decode (b h w H W : ℕ) (hh : h < H) (hw : w < W) :
    (b * (H * W) + h * W + w) / (H * W) = b
  ∧ (b * (H * W) + h * W + w) % (H * W) / W = h
  ∧ (b * (H * W) + h * W + w) % W = w := by
  have hW : 0 < W := by omega
  have hHW : 0 < H * W := Nat.mul_pos (by omega) hW
  have hr : h * W + w < H * W := by
    calc h * W + w < h * W + W := by omega
    _ = (h + 1) * W := by ring
    _ ≤ H * W := Nat.mul_le_mul_right W hh
  have e1 : b * (H * W) + h * W + w = (H * W) * b + (h * W + w) := by ring
  have e2 : b * (H * W) + h * W + w = W * (b * H + h) + w := by ring
  refine ⟨?_, ?_, ?_⟩
  · rw [e1, Nat.mul_add_div hHW, Nat.div_eq_of_lt hr, add_zero]
  · rw [e1, Nat.mul_add_mod, Nat.mod_eq_of_lt hr,
      show h * W + w = W * h + w by ring, Nat.mul_add_div hW,
      Nat.div_eq_of_lt hw, add_zero]
  · rw [e2, Nat.mul_add_mod, Nat.mod_eq_of_lt hw]

/-- The pooling body computes, per batch element and output coordinate, the
mean over all `H*W` spatial positions of the product of the two per-pixel
projections — the flattening preserves per-pixel channel vectors, and
averaging over `H` then `W` (the two `.mean(dim=1)` of line 101) equals the
joint mean over all spatial positions. -/
theorem pool_eq_joint_mean (C H W : ℕ) (r1 r2 : Mat)
    (data : ℕ → ℕ → ℕ → ℕ → ℝ) (b d : ℕ) :
    pool C H W r1 r2 data b d
      = (∑ h in Finset.range H, ∑ w in Finset.range W,
          (∑ c in Finset.range C, data b c h w * r1 c d) *
          (∑ c in Finset.range C, data b c h w * r2 c d)) / ((H : ℝ) * W) := by
  simp only [pool, bottomFlat]
  have hinner : ∀ w ∈ Finset.range W, ∀ h ∈ Finset.range H,
      ((∑ c in Finset.range C,
          data ((b * (H * W) + h * W + w) / (H * W)) c
            ((b * (H * W) + h * W + w) % (H * W) / W)
            ((b * (H * W) + h * W + w) % W) * r1 c d) *
        (∑ c in Finset.range C,
          data ((b * (H * W) + h * W + w) / (H * W)) c
            ((b * (H * W) + h * W + w) % (H * W) / W)
            ((b * (H * W) + h * W + w) % W) * r2 c d))
      = ((∑ c in Finset.range C, data b c h w * r1 c d) *
          (∑ c in Finset.range C, data b c h w * r2 c d)) := by
    intro w hw h hh
    obtain ⟨e1, e2, e3⟩ := flat_index_decode b h w H W
      (Finset.mem_range.mp hh) (Finset.mem_range.mp hw)
    rw [e1, e2, e3]
  calc (∑ w in Finset.range W,
        (∑ h in Finset.range H,
          (∑ c in Finset.range C,
            data ((b * (H * W) + h * W + w) / (H * W)) c
              ((b * (H * W) + h * W + w) % (H * W) / W)
              ((b * (H * W) + h * W + w) % W) * r1 c d) *
          (∑ c in Finset.range C,
            data ((b * (H * W) + h * W + w) / (H * W)) c
              ((b * (H * W) + h * W + w) % (H * W) / W)
              ((b * (H * W) + h * W + w) % W) * r2 c d)) / (H : ℝ)) / (W : ℝ)
      = (∑ w in Finset.range W,
          (∑ h in Finset.range H,
            (∑ c in Finset.range C, data b c h w * r1 c d) *
            (∑ c in Finset.range C, data b c h w * r2 c d)) / (H : ℝ)) / (W : ℝ) := by
        congr 1
        refine Finset.sum_congr rfl (fun w hw => ?_)
        congr 1
        exact Finset.sum_congr rfl (fun h hh => hinner w hw h hh)
    _ = (∑ h in Finset.range H, ∑ w in Finset.range W,
          (∑ c in Finset.range C, data b c h w * r1 c d) *
          (∑ c in Finset.range C, data b c h w * r2 c d)) / ((H : ℝ) * W) := by
        rw [← Finset.sum_div, div_div, Finset.sum_comm]

/-- Claim C1: the claim describes the intended pooling algorithm (flatten to
a `[B*H*W, input_dim]` matrix preserving per-pixel channel vectors, two
projections, Hadamard product, joint mean over spatial positions), but the
code cannot execute it: `DTR.forward` first reads `self.input_dim1` (line
89), an attribute that `__init__` never assigns (it assigns `input_dim`,
line 60), so every call — including one whose channel dimension equals the
configured `input_dim` — raises `AttributeError` and returns no descriptor.
The second conjunct proves the claimed algorithm of the pooling body itself,
including that averaging over `H` then `W` equals the joint mean over all
`H*W` positions. -/
theorem c1_forward_pool_spec (gen01 : ℕ → ℕ → ℕ → ℕ → ℕ → ℕ)
    (out_ch dim : ℕ) (bottom : Tensor4) (hch : bottom.channels = out_ch)
    (C H W : ℕ) (r1 r2 : Mat) (data : ℕ → ℕ → ℕ → ℕ → ℝ) (b d : ℕ) :
    DTR.forward (DTR.init gen01 out_ch dim none none) bottom
      = .error .attributeError
  ∧ pool C H W r1 r2 data b d
      = (∑ h in Finset.range H, ∑ w in Finset.range W,
          (∑ c in Finset.range C, data b c h w * r1 c d) *
          (∑ c in Finset.range C, data b c h w * r2 c d)) / ((H : ℝ) * W) :=
  ⟨rfl, pool_eq_joint_mean C H W r1 r2 data b d⟩

/-- Witness for C1 at a concrete matching-channel input: the channel
hypothesis is discharged by `rfl` and the joint-mean value evaluates to 1
for the all-ones `1×1×1×1` configuration. -/
theorem c1_forward_pool_spec_witness :
    DTR.forward (DTR.init (fun _ _ _ _ _ => 0) 3 4 none none)
        ⟨1, 3, 2, 2, fun _ _ _ _ => 0⟩ = .error .attributeError
  ∧ pool 1 1 1 (fun _ _ => 1) (fun _ _ => 1) (fun _ _ _ _ => 1) 0 0 = 1 := by
  have h := c1_forward_pool_spec (fun _ _ _ _ _ => 0) 3 4
    ⟨1, 3, 2, 2, fun _ _ _ _ => 0⟩ rfl 1 1 1 (fun _ _ => 1) (fun _ _ => 1)
    (fun _ _ _ _ => 1) 0 0
  refine ⟨h.1, ?_⟩
  rw [h.2]
  norm_num

/-- Claim C10: for every input tensor — whatever its channel dimension —
`DTR.forward` on a constructed `DTR` fails by reading the attribute
`input_dim1`, which `__init__` never assigns (it assigns `input_dim`), so
no pooling call can succeed and the channel-mismatch assertion is never the
failure actually reported. -/
theorem c10_forward_attribute_error (gen01 : ℕ → ℕ → ℕ → ℕ → ℕ → ℕ)
    (out_ch dim : ℕ) (rand_1 rand_2 : Option Mat) (bottom : Tensor4) :
    DTR.forward (DTR.init gen01 out_ch dim rand_1 rand_2) bottom
      = .error .attributeError := rfl

/-- Witness for C10 at a concrete state and tensor (channel dimension 7,
`input_dim` 256: even this mismatched call reports the attribute error, not
the assertion). -/
theorem c10_forward_attribute_error_witness :
    DTR.forward (DTR.init (fun _ _ _ _ _ => 1) 256 1024 none none)
      ⟨1, 7, 2, 2, fun _ _ _ _ => 0⟩ = .error .attributeError :=
  c10_forward_attribute_error (fun _ _ _ _ _ => 1) 256 1024 none none
    ⟨1, 7, 2, 2, fun _ _ _ _ => 0⟩

/-- Claim C2: when a projection matrix is supplied to the constructor it is
**not** stored — `__init__` assigns `self.rand_1` / `self.rand_2` only in
the `is None` branches, so the attribute stays unassigned (first two
conjuncts, refuting the claimed supplied-matrix behaviour).  When omitted,
each matrix is generated from its own fixed constant seed (128 for the
first, 1997 for the second) as `randint(2, size=(input_dim, output_dim))*2-1`
(third and fourth conjuncts), and — given the numpy contract that
`randint(2)` yields values in `{0, 1}` — every generated entry lies in
`{-1, +1}` (last conjunct). -/
theorem c2_init_projections (gen01 : ℕ → ℕ → ℕ → ℕ → ℕ → ℕ)
    (out_ch dim : ℕ) (M R2 : Mat) (s1 s2 : Option Mat)
    (hgen : ∀ s n m i j, gen01 s n m i j ≤ 1) :
    (DTR.init gen01 out_ch dim (some M) s2).rand_1 = none
  ∧ (DTR.init gen01 out_ch dim s1 (some R2)).rand_2 = none
  ∧ (DTR.init gen01 out_ch dim none none).rand_1
      = some (fun i j => (gen01 128 out_ch dim i j : ℝ) * 2 - 1)
  ∧ (DTR.init gen01 out_ch dim none none).rand_2
      = some (fun i j => (gen01 1997 out_ch dim i j : ℝ) * 2 - 1)
  ∧ ∀ s i j, ((gen01 s out_ch dim i j : ℝ) * 2 - 1) ∈ ({-1, 1} : Set ℝ) := by
  refine ⟨rfl, rfl, rfl, rfl, fun s i j => ?_⟩
  rcases Nat.le_one_iff_eq_zero_or_eq_one.mp (hgen s out_ch dim i j) with h | h <;>
    rw [h] <;> norm_num

/-- Witness for C2 with the constant generator `1` and a concrete supplied
matrix. -/
theorem c2_init_projections_witness :
    (DTR.init (fun _ _ _ _ _ => 1) 2 3 (some (fun _ _ => 5)) none).rand_1 = none
  ∧ (DTR.init (fun _ _ _ _ _ => 1) 2 3 none (some (fun _ _ => 5))).rand_2 = none
  ∧ (DTR.init (fun _ _ _ _ _ => 1) 2 3 none none).rand_1
      = some (fun _ _ => ((1 : ℕ) : ℝ) * 2 - 1)
  ∧ (DTR.init (fun _ _ _ _ _ => 1) 2 3 none none).rand_2
      = some (fun _ _ => ((1 : ℕ) : ℝ) * 2 - 1)
  ∧ ∀ _ _ _ : ℕ, (((1 : ℕ) : ℝ) * 2 - 1) ∈ ({-1, 1} : Set ℝ) :=
  c2_init_projections (fun _ _ _ _ _ => 1) 2 3 (fun _ _ => 5) (fun _ _ => 5)
    none none (fun _ _ _ _ _ => le_refl 1)

/-- Claim C8: a `forward` call whose channel dimension differs from the
configured `input_dim` does **not** fail with the dimension assertion of
line 89 (`AssertionError`, the `DimensionMismatch` condition): reading
`self.input_dim1` raises `AttributeError` first, so the reported failure is
the attribute error — and matching inputs are not accepted either (claim
C10 / C1). -/
theorem c8_forward_dimension_check (gen01 : ℕ → ℕ → ℕ → ℕ → ℕ → ℕ)
    (out_ch dim : ℕ) (rand_1 rand_2 : Option Mat) (bottom : Tensor4)
    (hne : bottom.channels ≠ out_ch) :
    DTR.forward (DTR.init gen01 out_ch dim rand_1 rand_2) bottom
      = .error .attributeError
  ∧ PyErr.attributeError ≠ PyErr.assertionError :=
  ⟨rfl, by decide⟩

/-- Witness for C8: channel dimension 3 against configured 256. -/
theorem c8_forward_dimension_check_witness :
    (⟨1, 3, 5, 5, fun _ _ _ _ => 0⟩ : Tensor4).channels ≠ 256
  ∧ (DTR.forward (DTR.init (fun _ _ _ _ _ => 0) 256 1024 none none)
      ⟨1, 3, 5, 5, fun _ _ _ _ => 0⟩ = .error .attributeError
    ∧ PyErr.attributeError ≠ PyErr.assertionError) :=
  ⟨by decide,
    c8_forward_dimension_check (fun _ _ _ _ _ => 0) 256 1024 none none
      ⟨1, 3, 5, 5, fun _ _ _ _ => 0⟩ (by decide)⟩

/-- Claim C4: for every image input and every angle argument, `get_dtr` with
`multi_scale=True` raises `TypeError` at the quarter-scale resize — the call
`cv2.resize(x, dize=None, fx=0.25, fy=0.25)` (line 140) misspells `dsize`,
and `cv2.resize` rejects the unknown keyword before any secondary descriptor
or concatenation can happen; no `2*output_dim` vector is ever returned. -/
theorem c4_get_dtr_multi_scale {Img : Type} (ops : PipelineOps Img)
    (st : DTRState) (img : ImgArg Img) (angle : AngleArg)
    (size : Option ℕ) (scale : Option ℚ) :
    DTR.get_dtr ops st img angle size scale true = .error .typeError := by
  cases angle <;> rfl

/-- Witness for C4 with concrete trivial collaborators. -/
theorem c4_get_dtr_multi_scale_witness :
    DTR.get_dtr
      ⟨fun _ => (), fun x => x, fun x _ _ => x, fun _ => (0, 0), fun x _ => x,
        fun _ => ⟨3, 1, 1, fun _ _ _ => 0⟩⟩
      (DTR.init (fun _ _ _ _ _ => 0) 256 1024 none none)
      (ImgArg.ndarray ()) (AngleArg.list [0, 90]) none none true
      = .error .typeError :=
  c4_get_dtr_multi_scale _ _ _ _ _ _

/-- Claim C3: with `multi_scale=False`, every path of `get_dtr` — angle
list, scalar angle, or no angle — ends in the pooling call `self.forward`
(line 159 via line 148 for the list path), which raises `AttributeError` on
`self.input_dim1`; so the claimed unit-norm averaged descriptor (list path)
and raw descriptor (scalar / absent path) are never returned. -/
theorem c3_get_dtr_angle_paths {Img : Type} (ops : PipelineOps Img)
    (gen01 : ℕ → ℕ → ℕ → ℕ → ℕ → ℕ) (out_ch dim : ℕ)
    (rand_1 rand_2 : Option Mat) (img : ImgArg Img) (theta : ℤ)
    (rest : List ℤ) (size : Option ℕ) (scale : Option ℚ) :
    DTR.get_dtr ops (DTR.init gen01 out_ch dim rand_1 rand_2) img
        (.list (theta :: rest)) size scale false = .error .attributeError
  ∧ DTR.get_dtr ops (DTR.init gen01 out_ch dim rand_1 rand_2) img
        (.int theta) size scale false = .error .attributeError
  ∧ DTR.get_dtr ops (DTR.init gen01 out_ch dim rand_1 rand_2) img
        .noAngle size scale false = .error .attributeError :=
  ⟨rfl, rfl, rfl⟩

/-- Witness for C3 with concrete trivial collaborators and `angle=[0]`. -/
theorem c3_get_dtr_angle_paths_witness :
    DTR.get_dtr
      ⟨fun _ => (), fun x => x, fun x _ _ => x, fun _ => (0, 0), fun x _ => x,
        fun _ => ⟨3, 1, 1, fun _ _ _ => 0⟩⟩
      (DTR.init (fun _ _ _ _ _ => 0) 256 1024 none none)
      (ImgArg.ndarray ()) (AngleArg.list [0]) none none false
      = .error .attributeError :=
  (c3_get_dtr_angle_paths _ (fun _ _ _ _ _ => 0) 256 1024 none none
    (ImgArg.ndarray ()) 0 [] none none).1

/-- Claim C9, counterexample to the zero-norm clause: at a zero-norm first
argument, `DTR.sim` does not fail with a degenerate-input condition — the
source has no guard and simply evaluates the quotient, so the call returns a
plain value (in the real-number embedding with the total-division
convention, `0`; in IEEE arithmetic, a silent NaN with only a runtime
warning).  The first conjunct exhibits the zero norm, the second the
returned value. -/
theorem c9_sim_zero_norm_counterexample :
    vecL2 2 (fun _ => 0) = 0
  ∧ DTR.sim 2 (fun _ => 0) (fun i => if i = 0 then 3 else 4) = 0 := by
  constructor
  · simp [vecL2]
  · simp [DTR.sim]

/-- Claim C9 as amended: for vectors with nonzero L2 norms, `sim` returns
`dot(x,y) / (‖x‖₂ · ‖y‖₂)` — stated in division-free form — while at zero
norms no condition is signalled and the quotient is returned as-is (see the
counterexample). -/
theorem c9_sim_formula (n : ℕ) (x y : Vec)
    (hx : vecL2 n x ≠ 0) (hy : vecL2 n y ≠ 0) :
    DTR.sim n x y * (vecL2 n x * vecL2 n y)
      = ∑ i in Finset.range n, x i * y i := by
  rw [DTR.sim, div_mul_cancel₀]
  exact mul_ne_zero hx hy

/-- Witness for C9 at the concrete vectors `(3, 4)` and `(4, 3)`, whose L2
norms are 5. -/
theorem c9_sim_formula_witness :
    vecL2 2 (fun i => if i = 0 then 3 else 4) ≠ 0
  ∧ vecL2 2 (fun i => if i = 0 then 4 else 3) ≠ 0
  ∧ DTR.sim 2 (fun i => if i = 0 then 3 else 4) (fun i => if i = 0 then 4 else 3)
      * (vecL2 2 (fun i => if i = 0 then 3 else 4)
          * vecL2 2 (fun i => if i = 0 then 4 else 3))
      = ∑ i in Finset.range 2,
          (if i = 0 then (3:ℝ) else 4) * (if i = 0 then (4:ℝ) else 3) := by
  have hx : vecL2 2 (fun i => if i = 0 then (3:ℝ) else 4) ≠ 0 := by
    unfold vecL2
    rw [Finset.sum_range_succ, Finset.sum_range_one]
    norm_num [Real.sqrt_ne_zero']
  have hy : vecL2 2 (fun i => if i = 0 then (4:ℝ) else 3) ≠ 0 := by
    unfold vecL2
    rw [Finset.sum_range_succ, Finset.sum_range_one]
    norm_num [Real.sqrt_ne_zero']
  exact ⟨hx, hy, c9_sim_formula 2 _ _ hx hy⟩

/-- Helper: `u_cases` is strictly sorted (sorted ascending with no
duplicates). -/
theorem u_cases_sorted_lt {α : Type} [LinearOrder α] (cases : List α) :
    (u_cases cases).Sorted (· < ·) := by
  have hs : (u_cases cases).Sorted (· ≤ ·) := List.sorted_insertionSort _ _
  have hn : (u_cases cases).Nodup :=
    (List.perm_insertionSort _ _).nodup_iff.mpr cases.nodup_dedup
  exact (hs.and hn).imp (fun h => lt_of_le_of_ne h.1 h.2)

/-- Helper: the sorted distinct labels are exactly the labels occurring in
the input. -/
theorem mem_u_cases {α : Type} [LinearOrder α] (cases : List α) (a : α) :
    a ∈ u_cases cases ↔ a ∈ cases := by
  rw [u_cases, (List.perm_insertionSort _ _).mem_iff, List.mem_dedup]

/-- Helper: a label that occurs in the input has a nonempty index group. -/
theorem caseIdx_nonempty {α : Type} [DecidableEq α] (cases : List α) (c : α)
    (hc : c ∈ cases) : (caseIdx cases c).Nonempty := by
  obtain ⟨k, hk⟩ := List.mem_iff_get.mp hc
  refine ⟨k.1, Finset.mem_filter.mpr ⟨Finset.mem_range.mpr k.2, ?_⟩⟩
  rw [List.get?_eq_get k.2]
  exact congrArg some hk

/-- Claim C5: `get_mean_dtrs` returns the distinct group labels sorted
ascending (first two conjuncts: strictly sorted, and containing exactly the
labels of the input), the group of every returned label is nonempty, row `r`
of the stacked matrix of line 224 is the arithmetic mean of the descriptor
rows whose label is the `r`-th sorted label (stated division-free), and the
returned matrix is that stack divided entrywise by the single shared
normalization constant of line 225 (whose value is claim C6's subject). -/
theorem c5_get_mean_dtrs_sorted_group_means {α : Type} [LinearOrder α]
    (M : ℕ) (dtrs : Mat) (cases : List α) (r : ℕ) (c : α) (j : ℕ)
    (hr : ((DTR.get_mean_dtrs M dtrs cases).2).get? r = some c) :
    ((DTR.get_mean_dtrs M dtrs cases).2).Sorted (· < ·)
  ∧ (∀ a, a ∈ (DTR.get_mean_dtrs M dtrs cases).2 ↔ a ∈ cases)
  ∧ (caseIdx cases c).Nonempty
  ∧ stackMeans dtrs cases r j * ((caseIdx cases c).card : ℝ)
      = ∑ i in caseIdx cases c, dtrs i j
  ∧ (DTR.get_mean_dtrs M dtrs cases).1 r j
      = stackMeans dtrs cases r j
          / matNorm2 (u_cases cases).length M (stackMeans dtrs cases) := by
  have hru : (u_cases cases).get? r = some c := hr
  have hcmem : c ∈ cases := (mem_u_cases cases c).mp (List.get?_mem hru)
  have hne : (caseIdx cases c).Nonempty := caseIdx_nonempty cases c hcmem
  have hcard : ((caseIdx cases c).card : ℝ) ≠ 0 :=
    Nat.cast_ne_zero.mpr (Finset.card_pos.mpr hne).ne'
  refine ⟨u_cases_sorted_lt cases, fun a => mem_u_cases cases a, hne, ?_, rfl⟩
  show (match (u_cases cases).get? r with
    | some case => caseMean dtrs cases case j
    | none => 0) * ((caseIdx cases c).card : ℝ) = _
  rw [hru]
  show caseMean dtrs cases c j * ((caseIdx cases c).card : ℝ) = _
  unfold caseMean
  exact div_mul_cancel₀ _ hcard

/-- Witness for C5 on descriptors `(i, j) ↦ i` with labels `[5, 3]`: the
returned label list is `[3, 5]` and position 0 carries label 3. -/
theorem c5_get_mean_dtrs_sorted_group_means_witness :
    ((DTR.get_mean_dtrs 1 (fun i _ => (i:ℝ)) [(5:ℕ), 3]).2).Sorted (· < ·)
  ∧ (∀ a, a ∈ (DTR.get_mean_dtrs 1 (fun i _ => (i:ℝ)) [(5:ℕ), 3]).2 ↔ a ∈ [(5:ℕ), 3])
  ∧ (caseIdx [(5:ℕ), 3] 3).Nonempty
  ∧ stackMeans (fun i _ => (i:ℝ)) [(5:ℕ), 3] 0 0 * ((caseIdx [(5:ℕ), 3] 3).card : ℝ)
      = ∑ i in caseIdx [(5:ℕ), 3] 3, (i:ℝ)
  ∧ (DTR.get_mean_dtrs 1 (fun i _ => (i:ℝ)) [(5:ℕ), 3]).1 0 0
      = stackMeans (fun i _ => (i:ℝ)) [(5:ℕ), 3] 0 0
          / matNorm2 (u_cases [(5:ℕ), 3]).length 1
              (stackMeans (fun i _ => (i:ℝ)) [(5:ℕ), 3]) :=
  c5_get_mean_dtrs_sorted_group_means 1 (fun i _ => (i:ℝ)) [5, 3] 0 3 0 (by decide)

/-- Helper: a vector divided entrywise by a nonnegative constant has its L2
norm divided by that constant. -/
theorem vecL2_div_const (n : ℕ) (f : Vec) (c : ℝ) (hc : 0 ≤ c) :
    vecL2 n (fun j => f j / c) = vecL2 n f / c := by
  unfold vecL2
  simp only
  rw [Finset.sum_congr rfl (fun j _ => div_pow (f j) c 2), ← Finset.sum_div,
    Real.sqrt_div (by positivity) (c ^ 2), Real.sqrt_sq hc]

/-- Helper: for a matrix with a single row, the matrix 2-norm (largest
singular value) coincides with the entrywise vector L2 norm — by
Cauchy-Schwarz the supremum of `|⟨a, x⟩|` over the unit sphere is `‖a‖₂`. -/
theorem matNorm2_one_row (n : ℕ) (A : Mat) :
    matNorm2 1 n A = frobNorm 1 n A := by
  have hfrob : frobNorm 1 n A = vecL2 n (A 0) := by
    unfold frobNorm vecL2
    rw [Finset.sum_range_one]
  rw [hfrob]
  have hval : ∀ x : Vec, vecL2 1 (fun i => ∑ j in Finset.range n, A i j * x j)
      = |∑ j in Finset.range n, A 0 j * x j| := by
    intro x
    unfold vecL2
    rw [Finset.sum_range_one, Real.sqrt_sq_eq_abs]
  have hub : ∀ t ∈ {t : ℝ | ∃ x : Vec, vecL2 n x = 1 ∧
      t = vecL2 1 (fun i => ∑ j in Finset.range n, A i j * x j)},
      t ≤ vecL2 n (A 0) := by
    rintro t ⟨x, hx1, rfl⟩
    rw [hval]
    have hcs := Finset.sum_mul_sq_le_sq_mul_sq (Finset.range n) (fun j => A 0 j) x
    rw [← Real.sqrt_sq_eq_abs]
    calc Real.sqrt ((∑ j in Finset.range n, A 0 j * x j) ^ 2)
        ≤ Real.sqrt ((∑ j in Finset.range n, A 0 j ^ 2) *
            (∑ j in Finset.range n, x j ^ 2)) := Real.sqrt_le_sqrt hcs
      _ = vecL2 n (A 0) * vecL2 n x := by
          unfold vecL2
          rw [← Real.sqrt_mul (by positivity)]
      _ = vecL2 n (A 0) := by rw [hx1, mul_one]
  unfold matNorm2
  by_cases hz : (∑ j in Finset.range n, A 0 j ^ 2) = 0
  · have hA0 : vecL2 n (A 0) = 0 := by unfold vecL2; rw [hz, Real.sqrt_zero]
    rw [hA0]
    rcases Nat.eq_zero_or_pos n with hn | hn
    · have hSempty : {t : ℝ | ∃ x : Vec, vecL2 n x = 1 ∧
          t = vecL2 1 (fun i => ∑ j in Finset.range n, A i j * x j)} = ∅ := by
        ext t
        simp only [Set.mem_setOf_eq, Set.mem_empty_iff_false, iff_false, not_exists]
        rintro x ⟨hx1, -⟩
        subst hn
        unfold vecL2 at hx1
        simp at hx1
      rw [hSempty, Real.sSup_empty]
    · have hzero : ∀ j ∈ Finset.range n, A 0 j = 0 := by
        intro j hj
        have h2 := (Finset.sum_eq_zero_iff_of_nonneg
          (fun j _ => sq_nonneg (A 0 j))).mp hz j hj
        exact pow_eq_zero_iff two_ne_zero |>.mp h2
      have hS : {t : ℝ | ∃ x : Vec, vecL2 n x = 1 ∧
          t = vecL2 1 (fun i => ∑ j in Finset.range n, A i j * x j)} = {0} := by
        ext t
        simp only [Set.mem_setOf_eq, Set.mem_singleton_iff]
        constructor
        · rintro ⟨x, hx1, rfl⟩
          rw [hval]
          rw [Finset.sum_congr rfl (fun j hj => by rw [hzero j hj, zero_mul])]
          simp
        · rintro rfl
          refine ⟨fun j => if j = 0 then 1 else 0, ?_, ?_⟩
          · unfold vecL2
            simp only
            rw [Finset.sum_congr rfl (fun j _ => by
              show (if j = 0 then (1:ℝ) else 0) ^ 2 = if j = 0 then (1:ℝ) else 0
              split <;> norm_num)]
            rw [Finset.sum_ite_eq' (Finset.range n) 0 (fun _ => (1:ℝ))]
            simp [Finset.mem_range.mpr hn]
          · rw [hval]
            rw [Finset.sum_congr rfl (fun j hj => by rw [hzero j hj, zero_mul])]
            simp
      rw [hS, csSup_singleton]
  · have hpos : 0 < ∑ j in Finset.range n, A 0 j ^ 2 :=
      lt_of_le_of_ne (by positivity) (Ne.symm hz)
    have hna_pos : 0 < vecL2 n (A 0) := Real.sqrt_pos.mpr hpos
    have hsq : vecL2 n (A 0) ^ 2 = ∑ j in Finset.range n, A 0 j ^ 2 :=
      Real.sq_sqrt hpos.le
    have hmem : vecL2 n (A 0) ∈ {t : ℝ | ∃ x : Vec, vecL2 n x = 1 ∧
        t = vecL2 1 (fun i => ∑ j in Finset.range n, A i j * x j)} := by
      refine ⟨fun j => A 0 j / vecL2 n (A 0), ?_, ?_⟩
      · rw [vecL2_div_const n (A 0) (vecL2 n (A 0)) hna_pos.le,
          div_self hna_pos.ne']
      · rw [hval]
        have e : ∑ j in Finset.range n, A 0 j * (A 0 j / vecL2 n (A 0))
            = (∑ j in Finset.range n, A 0 j ^ 2) / vecL2 n (A 0) := by
          rw [Finset.sum_congr rfl
            (fun j _ => by rw [show A 0 j * (A 0 j / vecL2 n (A 0))
              = A 0 j ^ 2 / vecL2 n (A 0) from by ring]), ← Finset.sum_div]
        rw [e, ← hsq, sq, mul_div_assoc, div_self hna_pos.ne', mul_one,
          abs_of_pos hna_pos]
    exact le_antisymm (csSup_le ⟨_, hmem⟩ hub)
      (le_csSup ⟨_, fun t ht => hub t ht⟩ hmem)

/-- Helper: the sorted distinct labels of the two-label input `[0, 1]`. -/
theorem u_cases_pair_eval : u_cases [(0:ℕ), 1] = [0, 1] := by decide

/-- Helper: index group of label 0 in `[0, 1]`. -/
theorem caseIdx_pair_eval0 : caseIdx [(0:ℕ), 1] 0 = {0} := by decide

/-- Helper: index group of label 1 in `[0, 1]`. -/
theorem caseIdx_pair_eval1 : caseIdx [(0:ℕ), 1] 1 = {1} := by decide

/-- Helper: for descriptors `diag(2, 2)` with labels `[0, 1]` the stacked
mean matrix agrees with the descriptors themselves (each group is a
singleton). -/
theorem stackMeans_pair_eval (j : ℕ) :
    stackMeans (fun i j => if i = j then (2:ℝ) else 0) [(0:ℕ), 1] 0 j
      = (if j = 0 then (2:ℝ) else 0)
  ∧ stackMeans (fun i j => if i = j then (2:ℝ) else 0) [(0:ℕ), 1] 1 j
      = (if j = 1 then (2:ℝ) else 0) := by
  constructor
  · show (match (u_cases [(0:ℕ), 1]).get? 0 with
      | some case => caseMean (fun i j => if i = j then (2:ℝ) else 0) [(0:ℕ), 1] case j
      | none => 0) = _
    rw [u_cases_pair_eval]
    show caseMean (fun i j => if i = j then (2:ℝ) else 0) [(0:ℕ), 1] 0 j = _
    unfold caseMean
    rw [caseIdx_pair_eval0]
    simp
  · show (match (u_cases [(0:ℕ), 1]).get? 1 with
      | some case => caseMean (fun i j => if i = j then (2:ℝ) else 0) [(0:ℕ), 1] case j
      | none => 0) = _
    rw [u_cases_pair_eval]
    show caseMean (fun i j => if i = j then (2:ℝ) else 0) [(0:ℕ), 1] 1 j = _
    unfold caseMean
    rw [caseIdx_pair_eval1]
    simp

/-- Helper: the matrix 2-norm of the stacked matrix `diag(2, 2)` is 2 (its
largest singular value), whereas its entrywise L2 norm is `√8`. -/
theorem matNorm2_pair_eval : matNorm2 2 2
    (stackMeans (fun i j => if i = j then (2:ℝ) else 0) [(0:ℕ), 1]) = 2 := by
  unfold matNorm2
  have hrow : ∀ x : Vec,
      (fun i => ∑ j in Finset.range 2,
        stackMeans (fun i j => if i = j then (2:ℝ) else 0) [(0:ℕ), 1] i j * x j) 0
          = 2 * x 0
    ∧ (fun i => ∑ j in Finset.range 2,
        stackMeans (fun i j => if i = j then (2:ℝ) else 0) [(0:ℕ), 1] i j * x j) 1
          = 2 * x 1 := by
    intro x
    constructor
    · show (∑ j in Finset.range 2,
        stackMeans (fun i j => if i = j then (2:ℝ) else 0) [(0:ℕ), 1] 0 j * x j) = 2 * x 0
      rw [Finset.sum_range_succ, Finset.sum_range_one,
        (stackMeans_pair_eval 0).1, (stackMeans_pair_eval 1).1]
      norm_num
    · show (∑ j in Finset.range 2,
        stackMeans (fun i j => if i = j then (2:ℝ) else 0) [(0:ℕ), 1] 1 j * x j) = 2 * x 1
      rw [Finset.sum_range_succ, Finset.sum_range_one,
        (stackMeans_pair_eval 0).2, (stackMeans_pair_eval 1).2]
      norm_num
  have hS : {t : ℝ | ∃ x : Vec, vecL2 2 x = 1 ∧
      t = vecL2 2 (fun i => ∑ j in Finset.range 2,
        stackMeans (fun i j => if i = j then (2:ℝ) else 0) [(0:ℕ), 1] i j * x j)}
      = {2} := by
    ext t
    simp only [Set.mem_setOf_eq, Set.mem_singleton_iff]
    constructor
    · rintro ⟨x, hx1, rfl⟩
      unfold vecL2
      rw [Finset.sum_range_succ, Finset.sum_range_one, (hrow x).1, (hrow x).2]
      have e : (2 * x 0) ^ 2 + (2 * x 1) ^ 2 = 4 * (x 0 ^ 2 + x 1 ^ 2) := by ring
      rw [e, Real.sqrt_mul (by norm_num : (0:ℝ) ≤ 4)]
      have h4 : Real.sqrt 4 = 2 := by
        rw [show (4:ℝ) = 2 ^ 2 by norm_num, Real.sqrt_sq (by norm_num : (0:ℝ) ≤ 2)]
      unfold vecL2 at hx1
      rw [Finset.sum_range_succ, Finset.sum_range_one] at hx1
      rw [h4, hx1, mul_one]
    · rintro rfl
      refine ⟨fun i => if i = 0 then 1 else 0, ?_, ?_⟩
      · unfold vecL2
        rw [Finset.sum_range_succ, Finset.sum_range_one]
        norm_num
      · unfold vecL2
        rw [Finset.sum_range_succ, Finset.sum_range_one,
          (hrow (fun i => if i = 0 then 1 else 0)).1,
          (hrow (fun i => if i = 0 then 1 else 0)).2]
        norm_num
        rw [show (4:ℝ) = 2 ^ 2 by norm_num, Real.sqrt_sq (by norm_num : (0:ℝ) ≤ 2)]
  rw [hS, csSup_singleton]

/-- Claim C6, counterexample: on the descriptors `diag(2, 2)` with labels
`[0, 1]`, the matrix returned by `get_mean_dtrs` is **not** the stacked mean
matrix divided by the single vector-L2-norm (Frobenius) constant over the
entire stack, as the claim states: `np.linalg.norm(dtrs_mean, ord=2)` on a
2-D array is the matrix 2-norm (largest singular value, here 2), not the
entrywise norm (here `√8`), so entry (0,0) of the returned matrix is
`2/2 = 1` while the claim predicts `2/√8`. -/
theorem c6_norm_counterexample :
    (DTR.get_mean_dtrs 2 (fun i j => if i = j then (2:ℝ) else 0) [(0:ℕ), 1]).1 0 0
      ≠ stackMeans (fun i j => if i = j then (2:ℝ) else 0) [(0:ℕ), 1] 0 0
        / frobNorm 2 2 (stackMeans (fun i j => if i = j then (2:ℝ) else 0) [(0:ℕ), 1]) := by
  have hres : (DTR.get_mean_dtrs 2 (fun i j => if i = j then (2:ℝ) else 0) [(0:ℕ), 1]).1 0 0
      = 1 := by
    show stackMeans (fun i j => if i = j then (2:ℝ) else 0) [(0:ℕ), 1] 0 0
      / matNorm2 (u_cases [(0:ℕ), 1]).length 2
          (stackMeans (fun i j => if i = j then (2:ℝ) else 0) [(0:ℕ), 1]) = 1
    rw [u_cases_pair_eval]
    show stackMeans (fun i j => if i = j then (2:ℝ) else 0) [(0:ℕ), 1] 0 0
      / matNorm2 2 2 (stackMeans (fun i j => if i = j then (2:ℝ) else 0) [(0:ℕ), 1]) = 1
    rw [matNorm2_pair_eval, (stackMeans_pair_eval 0).1]
    norm_num
  have hfrob : frobNorm 2 2
      (stackMeans (fun i j => if i = j then (2:ℝ) else 0) [(0:ℕ), 1])
      = Real.sqrt 8 := by
    unfold frobNorm
    rw [Finset.sum_range_succ, Finset.sum_range_one]
    rw [Finset.sum_range_succ, Finset.sum_range_one]
    rw [Finset.sum_range_succ, Finset.sum_range_one]
    rw [(stackMeans_pair_eval 0).1, (stackMeans_pair_eval 1).1,
      (stackMeans_pair_eval 0).2, (stackMeans_pair_eval 1).2]
    norm_num
  have hsqrt8 : Real.sqrt 8 ≠ 2 := by
    intro h
    have h8 : (8:ℝ) = 2 ^ 2 := by
      have := congrArg (· ^ 2) h
      simpa [Real.sq_sqrt (by norm_num : (0:ℝ) ≤ 8)] using this
    norm_num at h8
  rw [hres, hfrob, (stackMeans_pair_eval 0).1]
  have h20 : (if (0:ℕ) = 0 then (2:ℝ) else 0) = 2 := by norm_num
  rw [h20]
  intro h
  have hs8 : Real.sqrt 8 ≠ 0 := by
    rw [Real.sqrt_ne_zero']
    norm_num
  rw [eq_div_iff hs8, one_mul] at h
  exact hsqrt8 h

/-- Claim C6 as amended: `get_mean_dtrs` divides every entry of the stacked
mean matrix by one shared normalization constant computed over the entire
stack, but that constant is the **matrix 2-norm** (largest singular value)
of the stacked 2-D array, which `np.linalg.norm(·, ord=2)` computes — not
the entrywise vector L2 norm; the two coincide exactly when the stack has a
single row, i.e. one distinct label (second conjunct). -/
theorem c6_shared_constant_spectral {α : Type} [LinearOrder α] (M : ℕ)
    (dtrs : Mat) (cases : List α) (r j : ℕ) (n : ℕ) (A : Mat) :
    (DTR.get_mean_dtrs M dtrs cases).1 r j
      = stackMeans dtrs cases r j
          / matNorm2 (u_cases cases).length M (stackMeans dtrs cases)
  ∧ matNorm2 1 n A = frobNorm 1 n A :=
  ⟨rfl, matNorm2_one_row n A⟩

/-- Witness for the amended C6 at concrete inputs. -/
theorem c6_shared_constant_spectral_witness :
    (DTR.get_mean_dtrs 1 (fun _ _ => (1:ℝ)) [(0:ℕ)]).1 0 0
      = stackMeans (fun _ _ => (1:ℝ)) [(0:ℕ)] 0 0
          / matNorm2 (u_cases [(0:ℕ)]).length 1 (stackMeans (fun _ _ => (1:ℝ)) [(0:ℕ)])
  ∧ matNorm2 1 1 (fun _ _ => (1:ℝ)) = frobNorm 1 1 (fun _ _ => (1:ℝ)) :=
  c6_shared_constant_spectral 1 (fun _ _ => 1) [0] 0 0 1 (fun _ _ => 1)

/-- Claim C7 (spec-modelled, `get_medoid` lives in `deeptexture/utils.py`
which is absent from `src/`): for every group that occurs in the input, the
medoid index is a member of the group identified by its index into the full
N-row input; it minimizes the total cosine distance to all other members of
the group (equivalently maximizes the total cosine similarity — the model
maximizes similarity and the theorem states distance minimality); among
members of equal total distance it is the lowest original index; and a
singleton group selects its single member. -/
theorem c7_get_medoid_spec {α : Type} [DecidableEq α] (n : ℕ) (dtrs : Mat)
    (cases : List α) (case : α) (hc : case ∈ cases) :
    get_medoid n dtrs cases case ∈ caseIdx cases case
  ∧ (∀ j ∈ caseIdx cases case,
      totalCaseDist n dtrs cases case (get_medoid n dtrs cases case)
        ≤ totalCaseDist n dtrs cases case j)
  ∧ (∀ j ∈ caseIdx cases case,
      totalCaseDist n dtrs cases case j
          ≤ totalCaseDist n dtrs cases case (get_medoid n dtrs cases case)
        → get_medoid n dtrs cases case ≤ j)
  ∧ (∀ i0, caseIdx cases case = {i0} → get_medoid n dtrs cases case = i0) := by
  have hne : (caseIdx cases case).Nonempty := caseIdx_nonempty cases case hc
  have key : ∀ i ∈ caseIdx cases case, ∀ j ∈ caseIdx cases case,
      (totalCaseDist n dtrs cases case i ≤ totalCaseDist n dtrs cases case j
        ↔ totalCaseSim n dtrs cases case j ≤ totalCaseSim n dtrs cases case i) := by
    intro i hi j hj
    unfold totalCaseDist totalCaseSim
    rw [Finset.sum_sub_distrib, Finset.sum_sub_distrib, Finset.sum_const,
      Finset.sum_const, Finset.card_erase_of_mem hi, Finset.card_erase_of_mem hj]
    constructor <;> intro h <;> linarith
  have hS : {i : ℕ | i ∈ caseIdx cases case ∧
      ∀ j ∈ caseIdx cases case,
        totalCaseSim n dtrs cases case j ≤ totalCaseSim n dtrs cases case i}.Nonempty := by
    obtain ⟨b, hb, hmax⟩ :=
      Finset.exists_max_image (caseIdx cases case) (totalCaseSim n dtrs cases case) hne
    exact ⟨b, hb, hmax⟩
  have hmem : get_medoid n dtrs cases case ∈ {i : ℕ | i ∈ caseIdx cases case ∧
      ∀ j ∈ caseIdx cases case,
        totalCaseSim n dtrs cases case j ≤ totalCaseSim n dtrs cases case i} :=
    Nat.sInf_mem hS
  obtain ⟨hmg, hmax⟩ := hmem
  refine ⟨hmg, ?_, ?_, ?_⟩
  · intro j hj
    exact (key _ hmg j hj).mpr (hmax j hj)
  · intro j hj hle
    have hsim : totalCaseSim n dtrs cases case (get_medoid n dtrs cases case)
        ≤ totalCaseSim n dtrs cases case j := (key j hj _ hmg).mp hle
    exact Nat.sInf_le ⟨hj, fun k hk => le_trans (hmax k hk) hsim⟩
  · intro i0 h0
    rw [h0] at hmg
    exact Finset.mem_singleton.mp hmg

/-- Witness for C7 on a singleton group. -/
theorem c7_get_medoid_spec_witness :
    get_medoid 1 (fun _ _ => (1:ℝ)) [(0:ℕ)] 0 ∈ caseIdx [(0:ℕ)] 0
  ∧ (∀ j ∈ caseIdx [(0:ℕ)] 0,
      totalCaseDist 1 (fun _ _ => (1:ℝ)) [(0:ℕ)] 0 (get_medoid 1 (fun _ _ => (1:ℝ)) [(0:ℕ)] 0)
        ≤ totalCaseDist 1 (fun _ _ => (1:ℝ)) [(0:ℕ)] 0 j)
  ∧ (∀ j ∈ caseIdx [(0:ℕ)] 0,
      totalCaseDist 1 (fun _ _ => (1:ℝ)) [(0:ℕ)] 0 j
          ≤ totalCaseDist 1 (fun _ _ => (1:ℝ)) [(0:ℕ)] 0 (get_medoid 1 (fun _ _ => (1:ℝ)) [(0:ℕ)] 0)
        → get_medoid 1 (fun _ _ => (1:ℝ)) [(0:ℕ)] 0 ≤ j)
  ∧ (∀ i0, caseIdx [(0:ℕ)] 0 = {i0} → get_medoid 1 (fun _ _ => (1:ℝ)) [(0:ℕ)] 0 = i0) :=
  c7_get_medoid_spec 1 (fun _ _ => (1:ℝ)) [0] 0 (by decide)
